import Mathlib

/-!
Verification development for `src/fetchTweets.js` of the `azoni_node`
repository: a single-file polling bot that watches a list of account
handles, fetches posts newer than a per-handle watermark, filters out
replies, asks a language model for a commentary text and publishes a
reply, persisting two JSON mappings (handle to last-seen post id, handle
to account id) to local files.

The embedding is shallow.  HTTP calls and the language-model call are
external collaborators: their responses enter the model as explicit
parameters (an environment of response functions), with `none` standing
for a thrown/failed request, exactly at the points where the source does
`try`/`catch`.  JavaScript objects used as string-keyed maps are
insertion-ordered association lists (`jsGet`/`jsSet`).  Post IDs are
modelled by their numeric value (the platform compares IDs numerically
via the `since_id` query parameter).  Side effects that the claims talk
about (setting a watermark, a generation attempt, a publish call, a file
write) are recorded in an explicit event trace.  `JSON.stringify(m, null, 2)`
and `JSON.parse` on the flat string-to-string objects the program persists
are modelled character by character (`serializeMap` / `parseMap`),
covering the JSON escapes for quote, backslash, newline, tab and
carriage return.
-/

/-- A fetched post, per the platform response contract
`[ id, text, in_reply_to_user_id ]`: the reply-target field is `null`
(here `none`) on posts that are not replies, and the replied-to user's id
otherwise. -/
structure Tweet where
  id : Nat
  text : String
  in_reply_to_user_id : Option String
  deriving DecidableEq

/-- JavaScript object lookup `m[k]` on a string-keyed object held as an
insertion-ordered association list. -/
def jsGet {α : Type} : List (String × α) → String → Option α
  | [], _ => none
  | p :: rest, k => if p.1 = k then some p.2 else jsGet rest k

/-- JavaScript assignment `m[k] = v`: overwrite the existing key in place,
or append a fresh entry at the end. -/
def jsSet {α : Type} : List (String × α) → String → α → List (String × α)
  | [], k, v => [(k, v)]
  | p :: rest, k, v => if p.1 = k then (k, v) :: rest else p :: jsSet rest k v

/-- Whitespace characters the JSON reader skips. -/
def isWsChar (c : Char) : Bool :=
  c == ' ' || c == '\n' || c == '\t' || c == '\r'

/-- Drop leading JSON whitespace. -/
def skipWs : List Char → List Char
  | [] => []
  | c :: cs => if isWsChar c then skipWs cs else c :: cs

/-- JSON string escaping of one character, as `JSON.stringify` performs it
on the characters that actually occur in handles and numeric post IDs
(quote, backslash, and the common whitespace controls). -/
def escapeChar (c : Char) : List Char :=
  if c = '"' then ['\\', '"']
  else if c = '\\' then ['\\', '\\']
  else if c = '\n' then ['\\', 'n']
  else if c = '\t' then ['\\', 't']
  else if c = '\r' then ['\\', 'r']
  else [c]

/-- JSON string escaping of a character list. -/
def escapeChars : List Char → List Char
  | [] => []
  | c :: cs => escapeChar c ++ escapeChars cs

/-- A JSON string literal: quote, escaped body, quote. -/
def quoteChars (s : List Char) : List Char :=
  '"' :: (escapeChars s ++ ['"'])

/-- One `"key": "value"` line of `JSON.stringify(obj, null, 2)` output,
including its two-space indentation. -/
def entryChars (e : List Char × List Char) : List Char :=
  ' ' :: ' ' :: (quoteChars e.1 ++ ':' :: ' ' :: quoteChars e.2)

/-- The entry lines of `JSON.stringify(obj, null, 2)`, joined by a comma
and a newline. -/
def entriesChars : List (List Char × List Char) → List Char
  | [] => []
  | [e] => entryChars e
  | e :: f :: es => entryChars e ++ ',' :: '\n' :: entriesChars (f :: es)

/-- Full `JSON.stringify(obj, null, 2)` output of a flat string-to-string
object: the empty object prints as two braces, a non-empty one as an open
brace, newline, the entry lines, newline, close brace. -/
def mapChars : List (List Char × List Char) → List Char
  | [] => [Char.ofNat 123, Char.ofNat 125]
  | e :: es => Char.ofNat 123 :: '\n' :: (entriesChars (e :: es) ++ ['\n', Char.ofNat 125])

/-- Consume one expected character. -/
def expectChar (c : Char) (l : List Char) : Option (List Char) :=
  match l with
  | [] => none
  | d :: ds => if d = c then some ds else none

/-- Decode the character following a backslash inside a JSON string. -/
def unescapeChar (c : Char) : Option Char :=
  if c = '"' then some '"'
  else if c = '\\' then some '\\'
  else if c = '/' then some '/'
  else if c = 'n' then some '\n'
  else if c = 't' then some '\t'
  else if c = 'r' then some '\r'
  else if c = 'b' then some (Char.ofNat 8)
  else if c = 'f' then some (Char.ofNat 12)
  else none

/-- Read a JSON string body up to and including the closing quote,
returning the decoded characters and the rest of the input. -/
def parseStringBody : List Char → Option (List Char × List Char)
  | [] => none
  | c :: cs =>
    if c = '"' then some ([], cs)
    else if c = '\\' then
      match cs with
      | [] => none
      | d :: ds =>
        match unescapeChar d with
        | none => none
        | some u =>
          match parseStringBody ds with
          | none => none
          | some (s, r) => some (u :: s, r)
    else
      match parseStringBody cs with
      | none => none
      | some (s, r) => some (c :: s, r)

/-- Skip whitespace, then read one quoted JSON string. -/
def parseQuoted (l : List Char) : Option (List Char × List Char) :=
  match expectChar '"' (skipWs l) with
  | none => none
  | some r => parseStringBody r

/-- Read one `"key": "value"` member. -/
def parseEntry (l : List Char) : Option ((List Char × List Char) × List Char) :=
  match parseQuoted l with
  | none => none
  | some (k, r2) =>
    match expectChar ':' (skipWs r2) with
    | none => none
    | some r3 =>
      match parseQuoted r3 with
      | none => none
      | some (v, r5) => some ((k, v), r5)

/-- Read a non-empty comma-separated member list; the fuel bounds the
number of members and is instantiated with the input length. -/
def parseEntriesAux : Nat → List Char → Option (List (List Char × List Char) × List Char)
  | 0, _ => none
  | fuel + 1, l =>
    match parseEntry l with
    | none => none
    | some (e, r) =>
      match skipWs r with
      | [] => some ([e], [])
      | d :: r2 =>
        if d = ',' then
          match parseEntriesAux fuel r2 with
          | none => none
          | some (es, r3) => some (e :: es, r3)
        else some ([e], d :: r2)

/-- `JSON.parse` restricted to the flat string-to-string objects this
program persists: a brace-delimited, comma-separated list of string
members, with nothing but whitespace around them. -/
def parseMapChars (l : List Char) : Option (List (List Char × List Char)) :=
  match expectChar (Char.ofNat 123) (skipWs l) with
  | none => none
  | some r =>
    match skipWs r with
    | [] => none
    | d :: r2 =>
      if d = Char.ofNat 125 then (if skipWs r2 = [] then some [] else none)
      else
        match parseEntriesAux (l.length + 1) (d :: r2) with
        | none => none
        | some (es, r3) =>
          match expectChar (Char.ofNat 125) (skipWs r3) with
          | none => none
          | some r4 => if skipWs r4 = [] then some es else none

/-- `JSON.stringify(obj, null, 2)` on a flat string-to-string object. -/
def serializeMap (m : List (String × String)) : String :=
  ⟨mapChars (m.map fun p => (p.1.data, p.2.data))⟩

/-- `JSON.parse` of a flat string-to-string object. -/
def parseMap (s : String) : Option (List (String × String)) :=
  (parseMapChars s.data).map (List.map fun p => (⟨p.1⟩, ⟨p.2⟩))

/-- The `lastSeen.json` path (`lastSeenFile` in the source). -/
def lastSeenFile : String := "./lastSeen.json"

/-- The `userIds.json` path (`userIdFile` in the source). -/
def userIdFile : String := "./userIds.json"

/-- The watermark mapping written to `lastSeen.json`: post IDs are
serialized as their decimal digit strings. -/
def serializeLastSeen (m : List (String × Nat)) : String :=
  serializeMap (m.map fun p => (p.1, toString p.2))

/-- An observable side effect of the bot, recorded in order: a watermark
assignment (`lastSeen[username] = ...`), a commentary-generation attempt
(`generateQuote`) with its result, a publish call (`twitterClient.v2.tweet`)
with the posted text, a skipped handle, or a file write
(`fs.writeFileSync`). -/
inductive Event where
  | setWatermark (handle : String) (postId : Nat)
  | generate (postId : Nat) (result : Option String)
  | publish (postId : Nat) (text : String)
  | skipHandle (handle : String)
  | writeFile (path : String) (content : String)
  deriving DecidableEq

/-- Responses of the external collaborators during one poll cycle:
`fetched h` is the timeline response for the handle's fetch URL (`none`
when the HTTP request throws), and `gen txt` is the `generateQuote`
result on a post body (`none` when the completion call throws, so the
function returns `null`). -/
structure PollEnv where
  fetched : String → Option (List Tweet)
  gen : String → Option String

/-- The status URL interpolated into the posted text
(`https://twitter.com/i/web/status/` followed by the post id). -/
def statusUrl (tweetId : Nat) : String :=
  "https://twitter.com/i/web/status/" ++ toString tweetId

/-- The full text built by `postQuote`: the quote text, a blank line, and
the status URL. -/
def fullTweetText (quoteText : String) (tweetId : Nat) : String :=
  quoteText ++ "\n\n" ++ statusUrl tweetId

/-- `postQuote(tweetId, quoteText)`: one publish call with the composed
text (a failing HTTP call is caught and changes nothing). -/
def postQuote (tweetId : Nat) (quoteText : String) : Event :=
  Event.publish tweetId (fullTweetText quoteText tweetId)

/-- `getNewTweets(userId, username)`: on a thrown fetch, return no tweets
and leave the watermark alone; otherwise filter out replies
(`in_reply_to_user_id === null` keeps a post), record the newest
remaining post's id as the handle's watermark when any remain, and return
the remaining posts reversed to chronological order. -/
def getNewTweets (lastSeen : List (String × Nat)) (username : String)
    (response : Option (List Tweet)) :
    List (String × Nat) × List Tweet × List Event :=
  match response with
  | none => (lastSeen, [], [])
  | some tweets =>
    match tweets.filter (fun t => t.in_reply_to_user_id == none) with
    | [] => (lastSeen, [], [])
    | t0 :: rest =>
      (jsSet lastSeen username t0.id, (t0 :: rest).reverse,
        [Event.setWatermark username t0.id])

/-- The body of the per-tweet loop in `poll`: attempt commentary
generation; publish (quote, a space, an `@`-mention of the handle, then
the status URL appended by `postQuote`) only when the result is truthy —
JavaScript `if (quote)` rejects both `null` and the empty string. -/
def processTweet (env : PollEnv) (handle : String) (t : Tweet) : List Event :=
  match env.gen t.text with
  | none => [Event.generate t.id none]
  | some q =>
    if q == "" then [Event.generate t.id (some q)]
    else [Event.generate t.id (some q), postQuote t.id (q ++ " " ++ "@" ++ handle)]

/-- The per-tweet loop of `poll` over a chronological batch. -/
def processTweets (env : PollEnv) (handle : String) : List Tweet → List Event
  | [] => []
  | t :: ts => processTweet env handle t ++ processTweets env handle ts

/-- One iteration of `poll`'s per-handle loop: skip (with a warning) when
no account id is cached, otherwise fetch-and-filter via `getNewTweets`
and run the per-tweet loop on the returned batch. -/
def pollStep (env : PollEnv) (userIds : List (String × String))
    (lastSeen : List (String × Nat)) (handle : String) :
    List (String × Nat) × List Event :=
  match jsGet userIds handle with
  | none => (lastSeen, [Event.skipHandle handle])
  | some _ =>
    let r := getNewTweets lastSeen handle (env.fetched handle)
    (r.1, r.2.2 ++ processTweets env handle r.2.1)

/-- `poll`'s loop over the configured handles, threading the watermark
map and concatenating the per-handle traces. -/
def pollHandles (env : PollEnv) (userIds : List (String × String)) :
    List String → List (String × Nat) → List (String × Nat) × List Event
  | [], lastSeen => (lastSeen, [])
  | h :: rest, lastSeen =>
    let r1 := pollStep env userIds lastSeen h
    let r2 := pollHandles env userIds rest r1.1
    (r2.1, r1.2 ++ r2.2)

/-- One whole `poll` cycle: process every handle, then write the updated
watermark mapping to `lastSeen.json` (a failing write is caught and
changes nothing). -/
def poll (env : PollEnv) (userIds : List (String × String))
    (handles : List String) (lastSeen : List (String × Nat)) :
    List (String × Nat) × List Event :=
  let r := pollHandles env userIds handles lastSeen
  (r.1, r.2 ++ [Event.writeFile lastSeenFile (serializeLastSeen r.1)])

/-- Responses of the external collaborators during bootstrap:
`lookupId h` is the `getUserId` result (`none` when the lookup throws)
and `latest uid` is the `getLatestTweet` result (`none` when the request
throws, `some none` when the account has no posts). -/
structure BootEnv where
  lookupId : String → Option String
  latest : String → Option (Option Nat)

/-- The body of `initializeLastSeen`'s per-handle loop: a thrown lookup
skips the handle entirely; after a successful lookup the account id is
recorded, and the latest post id is recorded as the initial watermark
when one exists (a thrown or empty timeline leaves the watermark absent
but keeps the already-recorded account id). -/
def bootstrapHandle (env : BootEnv)
    (acc : List (String × String) × List (String × Nat)) (handle : String) :
    List (String × String) × List (String × Nat) :=
  match env.lookupId handle with
  | none => acc
  | some uid =>
    let ids := jsSet acc.1 handle uid
    match env.latest uid with
    | none => (ids, acc.2)
    | some none => (ids, acc.2)
    | some (some tid) => (ids, jsSet acc.2 handle tid)

/-- `initializeLastSeen()`: fold the per-handle bootstrap over the
configured handles starting from empty mappings, then write
`lastSeen.json` followed by `userIds.json` once each. -/
def initializeLastSeen (env : BootEnv) (handles : List String) :
    (List (String × String) × List (String × Nat)) × List Event :=
  let final := handles.foldl (bootstrapHandle env) ([], [])
  (final,
    [Event.writeFile lastSeenFile (serializeLastSeen final.2),
     Event.writeFile userIdFile (serializeMap final.1)])

/-- The module-level cache-loading block: one `try` wrapping both loads.
Each file is read only if present; a throw anywhere in the block (a
failing read or parse, modelled by `none`) jumps to the single `catch`,
leaving every not-yet-assigned mapping at its initial empty value. -/
def loadCache (lastSeenPresent : Bool) (lastSeenContent : Option String)
    (userIdsPresent : Bool) (userIdsContent : Option String) :
    List (String × String) × List (String × String) :=
  match (if lastSeenPresent then lastSeenContent.bind parseMap else some []) with
  | none => ([], [])
  | some ls =>
    match (if userIdsPresent then userIdsContent.bind parseMap else some []) with
    | none => (ls, [])
    | some us => (ls, us)

/-- Whether a trace contains a write to the given path. -/
def writesPath (trace : List Event) (path : String) : Bool :=
  trace.any fun e =>
    match e with
    | Event.writeFile p _ => p == path
    | _ => false

/-- Characters for which the serializer model agrees exactly with
`JSON.stringify`: everything from the space character up, plus the three
whitespace controls it escapes as two-character sequences. -/
def safeChar (c : Char) : Prop :=
  32 ≤ c.toNat ∨ c = '\n' ∨ c = '\t' ∨ c = '\r'

/-- A string made only of `safeChar`s. -/
def safeString (s : String) : Prop := ∀ c ∈ s.data, safeChar c

instance (c : Char) : Decidable (safeChar c) := by
  unfold safeChar; infer_instance

instance (s : String) : Decidable (safeString s) := by
  unfold safeString; infer_instance

/-! ## Association-map lemmas -/

theorem jsGet_jsSet_self {α : Type} (m : List (String × α)) (k : String) (v : α) :
    jsGet (jsSet m k v) k = some v := by
  induction m with
  | nil => simp [jsSet, jsGet]
  | cons p rest ih =>
    by_cases h : p.1 = k
    · simp [jsSet, jsGet, h]
    · simp [jsSet, jsGet, h, ih]

theorem jsGet_jsSet_ne {α : Type} (m : List (String × α)) (k k2 : String) (v : α)
    (h : k ≠ k2) : jsGet (jsSet m k v) k2 = jsGet m k2 := by
  induction m with
  | nil => simp [jsSet, jsGet, h]
  | cons p rest ih =>
    by_cases hp : p.1 = k
    · simp [jsSet, jsGet, hp, h]
    · simp [jsSet, jsGet, hp, ih]

/-! ## Trace-shape lemmas -/

theorem processTweets_append (env : PollEnv) (h : String) (l1 l2 : List Tweet) :
    processTweets env h (l1 ++ l2) =
      processTweets env h l1 ++ processTweets env h l2 := by
  induction l1 with
  | nil => simp [processTweets]
  | cons t ts ih => simp [processTweets, ih]

theorem generate_mem_processTweet (env : PollEnv) (h : String) (t : Tweet) :
    Event.generate t.id (env.gen t.text) ∈ processTweet env h t := by
  unfold processTweet
  cases hg : env.gen t.text with
  | none => simp
  | some q => by_cases hq : q == "" <;> simp [hq]

theorem generate_mem_processTweets (env : PollEnv) (h : String) (l : List Tweet)
    (t : Tweet) (ht : t ∈ l) :
    Event.generate t.id (env.gen t.text) ∈ processTweets env h l := by
  induction l with
  | nil => cases ht
  | cons s ss ih =>
    rcases List.mem_cons.mp ht with rfl | hmem
    · exact List.mem_append.mpr (Or.inl (generate_mem_processTweet env h t))
    · exact List.mem_append.mpr (Or.inr (ih hmem))

theorem mem_processTweet_generate (env : PollEnv) (h : String) (t : Tweet)
    (i : Nat) (q : Option String)
    (hmem : Event.generate i q ∈ processTweet env h t) :
    i = t.id ∧ q = env.gen t.text := by
  unfold processTweet at hmem
  cases hg : env.gen t.text with
  | none => rw [hg] at hmem; simp at hmem; simp [hmem, hg]
  | some s =>
    rw [hg] at hmem
    by_cases hq : s == "" <;> simp [hq, postQuote] at hmem <;> simp [hmem, hg]

theorem mem_processTweets_generate (env : PollEnv) (h : String) (l : List Tweet)
    (i : Nat) (q : Option String)
    (hmem : Event.generate i q ∈ processTweets env h l) :
    ∃ t, t ∈ l ∧ i = t.id ∧ q = env.gen t.text := by
  induction l with
  | nil => simp [processTweets] at hmem
  | cons s ss ih =>
    rcases List.mem_append.mp hmem with h1 | h1
    · obtain ⟨hi, hq⟩ := mem_processTweet_generate env h s i q h1
      exact ⟨s, List.mem_cons_self s ss, hi, hq⟩
    · obtain ⟨t, ht, hi, hq⟩ := ih h1
      exact ⟨t, List.mem_cons_of_mem s ht, hi, hq⟩

theorem getNewTweets_none (ls : List (String × Nat)) (u : String) :
    getNewTweets ls u none = (ls, [], []) := rfl

theorem getNewTweets_some (ls : List (String × Nat)) (u : String) (ts : List Tweet) :
    getNewTweets ls u (some ts) =
      (match ts.filter (fun t => t.in_reply_to_user_id == none) with
        | [] => (ls, [], [])
        | t0 :: rest =>
          (jsSet ls u t0.id, (t0 :: rest).reverse, [Event.setWatermark u t0.id])) := rfl

theorem getNewTweets_events_setWatermark (ls : List (String × Nat)) (u : String)
    (resp : Option (List Tweet)) (e : Event)
    (he : e ∈ (getNewTweets ls u resp).2.2) :
    ∃ h2 i2, e = Event.setWatermark h2 i2 := by
  cases resp with
  | none => rw [getNewTweets_none] at he; simp at he
  | some ts =>
    rw [getNewTweets_some] at he
    cases hf : ts.filter (fun t => t.in_reply_to_user_id == none) with
    | nil => rw [hf] at he; simp at he
    | cons t0 rest => rw [hf] at he; simp at he; exact ⟨u, t0.id, he⟩

theorem mem_getNewTweets_forwarded (ls : List (String × Nat)) (u : String)
    (ts : List Tweet) (t : Tweet) :
    t ∈ (getNewTweets ls u (some ts)).2.1 ↔
      t ∈ ts ∧ t.in_reply_to_user_id = none := by
  rw [getNewTweets_some]
  cases hf : ts.filter (fun t => t.in_reply_to_user_id == none) with
  | nil =>
    simp only [List.not_mem_nil, false_iff]
    intro hc
    have : t ∈ ts.filter (fun t => t.in_reply_to_user_id == none) :=
      List.mem_filter.mpr ⟨hc.1, by simp [hc.2]⟩
    rw [hf] at this
    simp at this
  | cons t0 rest =>
    show t ∈ (t0 :: rest).reverse ↔ _
    rw [List.mem_reverse, ← hf, List.mem_filter]
    simp

/-- C1: for every fetched batch in a poll cycle, a post is forwarded to
commentary generation and publishing iff it has no reply-target — posts
that are replies are excluded, and only posts with no reply-target are
kept for processing (and every kept post does reach the generation
step). -/
theorem forwarded_iff_not_reply (env : PollEnv) (userIds : List (String × String))
    (lastSeen : List (String × Nat)) (u uid : String) (ts : List Tweet)
    (huid : jsGet userIds u = some uid) (hresp : env.fetched u = some ts) :
    (∀ t, t ∈ (getNewTweets lastSeen u (env.fetched u)).2.1 ↔
        (t ∈ ts ∧ t.in_reply_to_user_id = none))
    ∧ (∀ t ∈ (getNewTweets lastSeen u (env.fetched u)).2.1,
        Event.generate t.id (env.gen t.text) ∈ (pollStep env userIds lastSeen u).2)
    ∧ (∀ i q, Event.generate i q ∈ (pollStep env userIds lastSeen u).2 →
        ∃ t, t ∈ ts ∧ t.in_reply_to_user_id = none ∧ i = t.id ∧ q = env.gen t.text) := by
  have hstep : (pollStep env userIds lastSeen u).2 =
      (getNewTweets lastSeen u (env.fetched u)).2.2
        ++ processTweets env u (getNewTweets lastSeen u (env.fetched u)).2.1 := by
    unfold pollStep
    rw [huid]
  refine ⟨?_, ?_, ?_⟩
  · intro t
    rw [hresp]
    exact mem_getNewTweets_forwarded lastSeen u ts t
  · intro t ht
    rw [hstep]
    exact List.mem_append.mpr
      (Or.inr (generate_mem_processTweets env u _ t ht))
  · intro i q hmem
    rw [hstep] at hmem
    rcases List.mem_append.mp hmem with h1 | h1
    · obtain ⟨h2, i2, he⟩ := getNewTweets_events_setWatermark lastSeen u _ _ h1
      simp at he
    · obtain ⟨t, ht, hi, hq⟩ := mem_processTweets_generate env u _ i q h1
      rw [hresp] at ht
      have := (mem_getNewTweets_forwarded lastSeen u ts t).mp ht
      exact ⟨t, this.1, this.2, hi, hq⟩

/-- Witness for C1 at a concrete input: a non-reply post in the fetched
batch reaches the generation step. -/
theorem forwarded_iff_not_reply_witness :
    Event.generate 7 (some "ok") ∈
      (pollStep ⟨fun _ => some [⟨7, "gm", none⟩], fun _ => some "ok"⟩
        [("AzoniNFT", "u1")] [] "AzoniNFT").2 := by
  have h := forwarded_iff_not_reply
    ⟨fun _ => some [⟨7, "gm", none⟩], fun _ => some "ok"⟩
    [("AzoniNFT", "u1")] [] "AzoniNFT" "u1" [⟨7, "gm", none⟩]
    (by decide) rfl
  have hm := (h.1 ⟨7, "gm", none⟩).mpr ⟨by simp, rfl⟩
  simpa using h.2.1 ⟨7, "gm", none⟩ hm

/-- C3: a fetch returning posts in newest-first order with none filtered
sets the watermark to the newest post's id and processes the posts
oldest-first. -/
theorem newest_first_batch_order (env : PollEnv) (userIds : List (String × String))
    (lastSeen : List (String × Nat)) (handle uid : String) (P1 P2 P3 : Tweet)
    (huid : jsGet userIds handle = some uid)
    (hresp : env.fetched handle = some [P3, P2, P1])
    (h1 : P1.in_reply_to_user_id = none) (h2 : P2.in_reply_to_user_id = none)
    (h3 : P3.in_reply_to_user_id = none) :
    jsGet (pollStep env userIds lastSeen handle).1 handle = some P3.id
    ∧ (pollStep env userIds lastSeen handle).2 =
        Event.setWatermark handle P3.id ::
          (processTweet env handle P1 ++ processTweet env handle P2
            ++ processTweet env handle P3) := by
  unfold pollStep
  rw [huid]
  unfold getNewTweets
  rw [hresp]
  simp [List.filter, h1, h2, h3, processTweets, jsGet_jsSet_self]

/-- Witness for C3 at concrete posts: the watermark becomes the newest
id and the trace runs oldest-first. -/
theorem newest_first_batch_order_witness :
    jsGet (pollStep ⟨fun _ => some [⟨9, "c", none⟩, ⟨8, "b", none⟩, ⟨7, "a", none⟩],
        fun _ => some "ok"⟩ [("AzoniNFT", "u1")] [] "AzoniNFT").1 "AzoniNFT" = some 9
    ∧ (pollStep ⟨fun _ => some [⟨9, "c", none⟩, ⟨8, "b", none⟩, ⟨7, "a", none⟩],
        fun _ => some "ok"⟩ [("AzoniNFT", "u1")] [] "AzoniNFT").2 =
        Event.setWatermark "AzoniNFT" 9 ::
          (processTweet ⟨fun _ => some [⟨9, "c", none⟩, ⟨8, "b", none⟩, ⟨7, "a", none⟩],
              fun _ => some "ok"⟩ "AzoniNFT" ⟨7, "a", none⟩
            ++ processTweet ⟨fun _ => some [⟨9, "c", none⟩, ⟨8, "b", none⟩, ⟨7, "a", none⟩],
              fun _ => some "ok"⟩ "AzoniNFT" ⟨8, "b", none⟩
            ++ processTweet ⟨fun _ => some [⟨9, "c", none⟩, ⟨8, "b", none⟩, ⟨7, "a", none⟩],
              fun _ => some "ok"⟩ "AzoniNFT" ⟨9, "c", none⟩) :=
  newest_first_batch_order _ [("AzoniNFT", "u1")] [] "AzoniNFT" "u1"
    ⟨7, "a", none⟩ ⟨8, "b", none⟩ ⟨9, "c", none⟩ (by decide) rfl rfl rfl rfl

/-- C5: when commentary generation fails (returns null) or returns the
empty string for a post, no publish call is made for that post, and the
per-tweet loop still processes the posts before and after it. -/
theorem generation_failure_skips_publish (env : PollEnv) (handle : String) (t : Tweet)
    (pre post : List Tweet)
    (hfail : env.gen t.text = none ∨ env.gen t.text = some "") :
    processTweet env handle t = [Event.generate t.id (env.gen t.text)]
    ∧ processTweets env handle (pre ++ t :: post) =
        processTweets env handle pre
          ++ Event.generate t.id (env.gen t.text) :: processTweets env handle post := by
  have h1 : processTweet env handle t = [Event.generate t.id (env.gen t.text)] := by
    rcases hfail with h | h <;> simp [processTweet, h]
  refine ⟨h1, ?_⟩
  rw [processTweets_append]
  simp [processTweets, h1]

/-- Witness for C5 at a concrete input: the failing post yields only a
generation event while its neighbours are still processed. -/
theorem generation_failure_skips_publish_witness :
    processTweet ⟨fun _ => some [], fun s => if s == "bad" then none else some "ok"⟩
        "AzoniNFT" ⟨5, "bad", none⟩ = [Event.generate 5 none]
    ∧ processTweets ⟨fun _ => some [], fun s => if s == "bad" then none else some "ok"⟩
        "AzoniNFT" ([⟨4, "a", none⟩] ++ ⟨5, "bad", none⟩ :: [⟨6, "b", none⟩]) =
        processTweets ⟨fun _ => some [], fun s => if s == "bad" then none else some "ok"⟩
          "AzoniNFT" [⟨4, "a", none⟩]
          ++ Event.generate 5 none ::
            processTweets ⟨fun _ => some [], fun s => if s == "bad" then none else some "ok"⟩
              "AzoniNFT" [⟨6, "b", none⟩] := by
  have h := generation_failure_skips_publish
    ⟨fun _ => some [], fun s => if s == "bad" then none else some "ok"⟩
    "AzoniNFT" ⟨5, "bad", none⟩ [⟨4, "a", none⟩] [⟨6, "b", none⟩] (Or.inl (by decide))
  simpa using h

/-! ## Poll-cycle equations and effect classification -/

theorem pollHandles_nil (env : PollEnv) (userIds : List (String × String))
    (ls : List (String × Nat)) : pollHandles env userIds [] ls = (ls, []) := rfl

theorem pollHandles_cons (env : PollEnv) (userIds : List (String × String))
    (h : String) (rest : List String) (ls : List (String × Nat)) :
    pollHandles env userIds (h :: rest) ls =
      ((pollHandles env userIds rest (pollStep env userIds ls h).1).1,
        (pollStep env userIds ls h).2
          ++ (pollHandles env userIds rest (pollStep env userIds ls h).1).2) := rfl

theorem pollStep_eq_none (env : PollEnv) (userIds : List (String × String))
    (ls : List (String × Nat)) (h : String) (hj : jsGet userIds h = none) :
    pollStep env userIds ls h = (ls, [Event.skipHandle h]) := by
  unfold pollStep; rw [hj]

theorem pollStep_eq_some (env : PollEnv) (userIds : List (String × String))
    (ls : List (String × Nat)) (h uid : String) (hj : jsGet userIds h = some uid) :
    pollStep env userIds ls h =
      ((getNewTweets ls h (env.fetched h)).1,
        (getNewTweets ls h (env.fetched h)).2.2
          ++ processTweets env h (getNewTweets ls h (env.fetched h)).2.1) := by
  unfold pollStep; rw [hj]

theorem processTweet_events (env : PollEnv) (h : String) (t : Tweet) (e : Event)
    (he : e ∈ processTweet env h t) :
    (∃ q, e = Event.generate t.id q) ∨ (∃ s, e = Event.publish t.id s) := by
  unfold processTweet at he
  cases hg : env.gen t.text with
  | none => rw [hg] at he; simp at he; exact Or.inl ⟨none, he⟩
  | some q =>
    rw [hg] at he
    by_cases hq : q == ""
    · simp [hq] at he; exact Or.inl ⟨some q, he⟩
    · simp [hq, postQuote] at he
      rcases he with he | he
      · exact Or.inl ⟨some q, he⟩
      · exact Or.inr ⟨_, he⟩

theorem processTweets_events (env : PollEnv) (h : String) (l : List Tweet) (e : Event)
    (he : e ∈ processTweets env h l) :
    ∃ t, t ∈ l ∧ ((∃ q, e = Event.generate t.id q) ∨ (∃ s, e = Event.publish t.id s)) := by
  induction l with
  | nil => simp [processTweets] at he
  | cons s ss ih =>
    rcases List.mem_append.mp he with h1 | h1
    · exact ⟨s, List.mem_cons_self s ss, processTweet_events env h s e h1⟩
    · obtain ⟨t, ht, hc⟩ := ih h1
      exact ⟨t, List.mem_cons_of_mem s ht, hc⟩

/-! ## C2: watermark monotonicity across a poll cycle -/

theorem getNewTweets_watermark_mono (ls : List (String × Nat)) (h u : String)
    (resp : Option (List Tweet)) (w : Nat)
    (hs : h = u → ∀ ts, resp = some ts → ∀ t ∈ ts, w < t.id)
    (hv : ∃ v, jsGet ls u = some v ∧ w ≤ v) :
    ∃ v, jsGet (getNewTweets ls h resp).1 u = some v ∧ w ≤ v := by
  cases resp with
  | none => rw [getNewTweets_none]; exact hv
  | some ts =>
    rw [getNewTweets_some]
    cases hf : ts.filter (fun t => t.in_reply_to_user_id == none) with
    | nil => exact hv
    | cons t0 rest =>
      by_cases hu : h = u
      · subst hu
        refine ⟨t0.id, jsGet_jsSet_self ls h t0.id, ?_⟩
        have ht0 : t0 ∈ ts := by
          have : t0 ∈ ts.filter (fun t => t.in_reply_to_user_id == none) := by
            rw [hf]; exact List.mem_cons_self _ _
          exact List.mem_of_mem_filter this
        exact le_of_lt (hs rfl ts rfl t0 ht0)
      · obtain ⟨v, hv1, hv2⟩ := hv
        exact ⟨v, by rw [jsGet_jsSet_ne ls h u t0.id hu]; exact hv1, hv2⟩

theorem pollStep_watermark_mono (env : PollEnv) (userIds : List (String × String))
    (ls : List (String × Nat)) (h u : String) (w : Nat)
    (hs : ∀ ts, env.fetched u = some ts → ∀ t ∈ ts, w < t.id)
    (hv : ∃ v, jsGet ls u = some v ∧ w ≤ v) :
    ∃ v, jsGet (pollStep env userIds ls h).1 u = some v ∧ w ≤ v := by
  cases hj : jsGet userIds h with
  | none => rw [pollStep_eq_none env userIds ls h hj]; exact hv
  | some uid =>
    rw [pollStep_eq_some env userIds ls h uid hj]
    exact getNewTweets_watermark_mono ls h u (env.fetched h) w
      (fun he => by subst he; exact hs) hv

theorem pollHandles_watermark_mono (env : PollEnv) (userIds : List (String × String))
    (u : String) (w : Nat)
    (hs : ∀ ts, env.fetched u = some ts → ∀ t ∈ ts, w < t.id) :
    ∀ (handles : List String) (ls : List (String × Nat)),
      (∃ v, jsGet ls u = some v ∧ w ≤ v) →
      ∃ v, jsGet (pollHandles env userIds handles ls).1 u = some v ∧ w ≤ v := by
  intro handles
  induction handles with
  | nil => intro ls hv; rw [pollHandles_nil]; exact hv
  | cons h rest ih =>
    intro ls hv
    rw [pollHandles_cons]
    exact ih _ (pollStep_watermark_mono env userIds ls h u w hs hv)

/-- C2: for every handle with a cached watermark, a poll cycle never
decreases that handle's watermark — under the `since_id` fetch contract
(every post returned for the handle is newer than its cached watermark),
the cycle either advances the watermark or leaves it unchanged. -/
theorem watermark_never_decreases (env : PollEnv) (userIds : List (String × String))
    (handles : List String) (ls : List (String × Nat)) (u : String) (w : Nat)
    (hw : jsGet ls u = some w)
    (hsince : ∀ ts, env.fetched u = some ts → ∀ t ∈ ts, w < t.id) :
    ∃ v, jsGet (poll env userIds handles ls).1 u = some v ∧ w ≤ v :=
  pollHandles_watermark_mono env userIds u w hsince handles ls ⟨w, hw, le_refl w⟩

/-- Witness for C2 at a concrete input: a watermark of 3 and one new
post with id 10 leave the watermark at 10 after the cycle. -/
theorem watermark_never_decreases_witness :
    ∃ v, jsGet (poll ⟨fun _ => some [⟨10, "x", none⟩], fun _ => none⟩
        [("A", "u")] ["A"] [("A", 3)]).1 "A" = some v ∧ 3 ≤ v :=
  watermark_never_decreases ⟨fun _ => some [⟨10, "x", none⟩], fun _ => none⟩
    [("A", "u")] ["A"] [("A", 3)] "A" 3 (by decide)
    (by intro ts hts t ht
        cases hts
        simp at ht
        subst ht
        decide)

/-! ## C4: what a poll cycle persists -/

theorem pollStep_no_writeFile (env : PollEnv) (userIds : List (String × String))
    (ls : List (String × Nat)) (h : String) (p c : String)
    (hmem : Event.writeFile p c ∈ (pollStep env userIds ls h).2) : False := by
  cases hj : jsGet userIds h with
  | none => rw [pollStep_eq_none env userIds ls h hj] at hmem; simp at hmem
  | some uid =>
    rw [pollStep_eq_some env userIds ls h uid hj] at hmem
    rcases List.mem_append.mp hmem with h1 | h1
    · obtain ⟨h2, i2, he⟩ := getNewTweets_events_setWatermark ls h _ _ h1
      simp at he
    · obtain ⟨t, _, hc⟩ := processTweets_events env h _ _ h1
      rcases hc with ⟨q, he⟩ | ⟨s, he⟩ <;> simp at he

theorem pollHandles_no_writeFile (env : PollEnv) (userIds : List (String × String))
    (p c : String) :
    ∀ (handles : List String) (ls : List (String × Nat)),
      Event.writeFile p c ∈ (pollHandles env userIds handles ls).2 → False := by
  intro handles
  induction handles with
  | nil => intro ls hmem; rw [pollHandles_nil] at hmem; simp at hmem
  | cons h rest ih =>
    intro ls hmem
    rw [pollHandles_cons] at hmem
    rcases List.mem_append.mp hmem with h1 | h1
    · exact pollStep_no_writeFile env userIds ls h p c h1
    · exact ih _ h1

/-- C4 counterexample: at a concrete input, a completed poll cycle
writes `lastSeen.json` but performs no write of `userIds.json`, so the
claim that both JSON mappings are saved after every poll cycle fails. -/
theorem poll_userIds_not_saved_cex :
    writesPath ((poll ⟨fun _ => some [], fun _ => none⟩
        [("AzoniNFT", "u1")] ["AzoniNFT"] []).2) lastSeenFile = true
    ∧ writesPath ((poll ⟨fun _ => some [], fun _ => none⟩
        [("AzoniNFT", "u1")] ["AzoniNFT"] []).2) userIdFile = false := by
  constructor <;> rfl

/-- C4 (amended): after every poll cycle only the watermark mapping is
persisted — the last effect of the cycle writes the updated mapping to
`lastSeen.json`, and no write of `userIds.json` occurs during a poll
cycle (the account-id mapping is written only during bootstrap). -/
theorem poll_persists_lastSeen_only (env : PollEnv) (userIds : List (String × String))
    (handles : List String) (ls : List (String × Nat)) :
    (poll env userIds handles ls).2.getLast? =
        some (Event.writeFile lastSeenFile
          (serializeLastSeen (poll env userIds handles ls).1))
    ∧ writesPath (poll env userIds handles ls).2 userIdFile = false := by
  constructor
  · show ((pollHandles env userIds handles ls).2
        ++ [Event.writeFile lastSeenFile
          (serializeLastSeen (pollHandles env userIds handles ls).1)]).getLast? = _
    rw [List.getLast?_append]
    rfl
  · show ((pollHandles env userIds handles ls).2
        ++ [Event.writeFile lastSeenFile
          (serializeLastSeen (pollHandles env userIds handles ls).1)]).any _ = false
    rw [List.any_append]
    have h1 : (pollHandles env userIds handles ls).2.any (fun e =>
        match e with
        | Event.writeFile p _ => p == userIdFile
        | _ => false) = false := by
      rw [List.any_eq_false]
      intro e he
      cases e with
      | writeFile p c => exact absurd he (fun hc =>
          pollHandles_no_writeFile env userIds p c handles ls hc)
      | setWatermark h2 i2 => simp
      | generate i2 q => simp
      | publish i2 s => simp
      | skipHandle h2 => simp
    rw [h1]
    rfl

/-! ## C9: composition of the published reply text -/

theorem mem_processTweet_publish (env : PollEnv) (h : String) (t : Tweet)
    (i : Nat) (s : String)
    (hmem : Event.publish i s ∈ processTweet env h t) :
    ∃ q, env.gen t.text = some q ∧ (q == "") = false ∧ i = t.id ∧
      s = (q ++ " " ++ "@" ++ h) ++ "\n\n" ++ statusUrl t.id := by
  unfold processTweet at hmem
  cases hg : env.gen t.text with
  | none => rw [hg] at hmem; simp at hmem
  | some q =>
    rw [hg] at hmem
    by_cases hq : q == ""
    · simp [hq] at hmem
    · simp only [if_neg hq, postQuote, fullTweetText, List.mem_cons,
        List.not_mem_nil, or_false] at hmem
      rcases hmem with hmem | hmem
      · simp at hmem
      · have := Event.publish.injEq i s t.id
          ((q ++ " " ++ "@" ++ h) ++ "\n\n" ++ statusUrl t.id) ▸ hmem
        refine ⟨q, rfl, by simp [hq], ?_, ?_⟩
        · exact (Event.publish.inj hmem).1
        · exact (Event.publish.inj hmem).2

theorem mem_processTweets_publish (env : PollEnv) (h : String) (l : List Tweet)
    (i : Nat) (s : String)
    (hmem : Event.publish i s ∈ processTweets env h l) :
    ∃ t q, t ∈ l ∧ env.gen t.text = some q ∧ (q == "") = false ∧ i = t.id ∧
      s = (q ++ " " ++ "@" ++ h) ++ "\n\n" ++ statusUrl t.id := by
  induction l with
  | nil => simp [processTweets] at hmem
  | cons x xs ih =>
    rcases List.mem_append.mp hmem with h1 | h1
    · obtain ⟨q, hq⟩ := mem_processTweet_publish env h x i s h1
      exact ⟨x, q, List.mem_cons_self x xs, hq⟩
    · obtain ⟨t, q, ht, hq⟩ := ih h1
      exact ⟨t, q, List.mem_cons_of_mem x ht, hq⟩

theorem mem_pollHandles_publish (env : PollEnv) (userIds : List (String × String))
    (i : Nat) (s : String) :
    ∀ (handles : List String) (ls : List (String × Nat)),
      Event.publish i s ∈ (pollHandles env userIds handles ls).2 →
      ∃ h, h ∈ handles ∧ (∃ uid, jsGet userIds h = some uid) ∧
        ∃ ts, env.fetched h = some ts ∧
        ∃ t, t ∈ ts ∧ t.in_reply_to_user_id = none ∧
        ∃ q, env.gen t.text = some q ∧ (q == "") = false ∧ i = t.id ∧
          s = (q ++ " " ++ "@" ++ h) ++ "\n\n" ++ statusUrl t.id := by
  intro handles
  induction handles with
  | nil => intro ls hmem; rw [pollHandles_nil] at hmem; simp at hmem
  | cons h rest ih =>
    intro ls hmem
    rw [pollHandles_cons] at hmem
    rcases List.mem_append.mp hmem with h1 | h1
    · cases hj : jsGet userIds h with
      | none => rw [pollStep_eq_none env userIds ls h hj] at h1; simp at h1
      | some uid =>
        rw [pollStep_eq_some env userIds ls h uid hj] at h1
        rcases List.mem_append.mp h1 with h2 | h2
        · obtain ⟨h3, i3, he⟩ := getNewTweets_events_setWatermark ls h _ _ h2
          simp at he
        · obtain ⟨t, q, ht, hq⟩ := mem_processTweets_publish env h _ i s h2
          cases hresp : env.fetched h with
          | none =>
            rw [hresp, getNewTweets_none] at ht
            simp at ht
          | some ts =>
            rw [hresp] at ht
            have hts := (mem_getNewTweets_forwarded ls h ts t).mp ht
            exact ⟨h, List.mem_cons_self h rest, ⟨uid, hj⟩, ts, hresp,
              t, hts.1, hts.2, q, hq⟩
    · obtain ⟨h2, hh2, hrest⟩ := ih _ h1
      exact ⟨h2, List.mem_cons_of_mem h hh2, hrest⟩

/-- C9: every reply text published during a poll cycle belongs to a
handle actually polled (one of the configured handles, with a cached
account id) and to a qualifying (non-reply) post actually fetched for
that handle, and it consists of the commentary generated for that very
post, a space and an `@`-mention of that handle, then a blank line and
the reference link to that post. -/
theorem published_reply_composition (env : PollEnv) (userIds : List (String × String))
    (handles : List String) (ls : List (String × Nat)) (i : Nat) (s : String)
    (hmem : Event.publish i s ∈ (poll env userIds handles ls).2) :
    ∃ h, h ∈ handles ∧ (∃ uid, jsGet userIds h = some uid) ∧
      ∃ ts, env.fetched h = some ts ∧
      ∃ t, t ∈ ts ∧ t.in_reply_to_user_id = none ∧
      ∃ q, env.gen t.text = some q ∧ (q == "") = false ∧ i = t.id ∧
        s = (q ++ " " ++ "@" ++ h) ++ "\n\n" ++ statusUrl t.id := by
  have hmem2 : Event.publish i s ∈ (pollHandles env userIds handles ls).2 := by
    have : (poll env userIds handles ls).2 =
        (pollHandles env userIds handles ls).2
          ++ [Event.writeFile lastSeenFile
            (serializeLastSeen (pollHandles env userIds handles ls).1)] := rfl
    rw [this] at hmem
    rcases List.mem_append.mp hmem with h1 | h1
    · exact h1
    · simp at h1
  exact mem_pollHandles_publish env userIds i s handles ls hmem2

/-- Witness for C9: the concrete cycle publishes the commentary
generated for the fetched non-reply post of the polled handle, with the
mention of that handle and the link to that post. -/
theorem published_reply_composition_witness :
    ∃ h, h ∈ ["AzoniNFT"] ∧ (∃ uid, jsGet [("AzoniNFT", "u1")] h = some uid) ∧
      ∃ ts, (PollEnv.mk (fun _ => some [⟨7, "gm", none⟩])
          (fun _ => some "ok")).fetched h = some ts ∧
      ∃ t, t ∈ ts ∧ t.in_reply_to_user_id = none ∧
      ∃ q, (PollEnv.mk (fun _ => some [⟨7, "gm", none⟩])
          (fun _ => some "ok")).gen t.text = some q ∧ (q == "") = false ∧ 7 = t.id ∧
        "ok @AzoniNFT\n\nhttps://twitter.com/i/web/status/7" =
          (q ++ " " ++ "@" ++ h) ++ "\n\n" ++ statusUrl t.id :=
  published_reply_composition ⟨fun _ => some [⟨7, "gm", none⟩], fun _ => some "ok"⟩
    [("AzoniNFT", "u1")] ["AzoniNFT"] [] 7
    "ok @AzoniNFT\n\nhttps://twitter.com/i/web/status/7" (by decide)

/-! ## C10: watermark is recorded before any processing of the batch -/

theorem processTweet_no_setWatermark (env : PollEnv) (h : String) (t : Tweet)
    (e : Event) (he : e ∈ processTweet env h t) (h2 : String) (i2 : Nat) :
    e ≠ Event.setWatermark h2 i2 := by
  rcases processTweet_events env h t e he with ⟨q, rfl⟩ | ⟨s, rfl⟩ <;> simp

theorem processTweets_no_setWatermark (env : PollEnv) (h : String) (l : List Tweet)
    (e : Event) (he : e ∈ processTweets env h l) (h2 : String) (i2 : Nat) :
    e ≠ Event.setWatermark h2 i2 := by
  obtain ⟨t, _, hc⟩ := processTweets_events env h l e he
  rcases hc with ⟨q, rfl⟩ | ⟨s, rfl⟩ <;> simp

/-- C10: when a batch has qualifying posts, the poll step records the
handle's new watermark (the newest qualifying post's id, under the
newest-first response ordering) as its very first effect, before any
commentary generation or publish attempt; every post of that batch has
an id at most the new watermark, so under the `since_id` contract no
later fetch for the handle can return such a post again. -/
theorem watermark_advances_before_processing (env : PollEnv)
    (userIds : List (String × String)) (ls : List (String × Nat))
    (h uid : String) (ts : List Tweet) (t0 : Tweet) (fs : List Tweet)
    (huid : jsGet userIds h = some uid)
    (hresp : env.fetched h = some ts)
    (hfilter : ts.filter (fun t => t.in_reply_to_user_id == none) = t0 :: fs)
    (hsorted : ts.Pairwise (fun a b => b.id ≤ a.id)) :
    (pollStep env userIds ls h).2 =
        Event.setWatermark h t0.id :: processTweets env h ((t0 :: fs).reverse)
    ∧ jsGet (pollStep env userIds ls h).1 h = some t0.id
    ∧ (∀ t ∈ (t0 :: fs).reverse, t.id ≤ t0.id)
    ∧ (∀ e ∈ processTweets env h ((t0 :: fs).reverse),
        ∀ h2 i2, e ≠ Event.setWatermark h2 i2)
    ∧ (∀ t ∈ (t0 :: fs).reverse, ∀ later : List Tweet,
        (∀ t2 ∈ later, t0.id < t2.id) → t ∉ later) := by
  have hmax : ∀ t ∈ (t0 :: fs).reverse, t.id ≤ t0.id := by
    have hpw : (t0 :: fs).Pairwise (fun a b => b.id ≤ a.id) := by
      rw [← hfilter]
      exact List.Pairwise.sublist (List.filter_sublist ts) hsorted
    intro t ht
    rw [List.mem_reverse] at ht
    rcases List.mem_cons.mp ht with rfl | ht
    · exact le_refl _
    · exact (List.pairwise_cons.mp hpw).1 t ht
  have hred : getNewTweets ls h (env.fetched h) =
      (jsSet ls h t0.id, (t0 :: fs).reverse, [Event.setWatermark h t0.id]) := by
    rw [hresp, getNewTweets_some, hfilter]
  refine ⟨?_, ?_, hmax, ?_, ?_⟩
  · rw [pollStep_eq_some env userIds ls h uid huid, hred]
    rfl
  · rw [pollStep_eq_some env userIds ls h uid huid, hred]
    exact jsGet_jsSet_self ls h t0.id
  · exact fun e he => processTweets_no_setWatermark env h _ e he
  · intro t ht later hlater hmem
    exact absurd (hmax t ht) (not_le.mpr (hlater t hmem))

/-- Witness for C10: after a concrete step the watermark equals the
newest qualifying id. -/
theorem watermark_advances_before_processing_witness :
    jsGet (pollStep ⟨fun _ => some [⟨9, "c", none⟩, ⟨8, "b", some "r"⟩, ⟨7, "a", none⟩],
        fun _ => some "ok"⟩ [("AzoniNFT", "u1")] [] "AzoniNFT").1 "AzoniNFT" = some 9 :=
  (watermark_advances_before_processing
    ⟨fun _ => some [⟨9, "c", none⟩, ⟨8, "b", some "r"⟩, ⟨7, "a", none⟩], fun _ => some "ok"⟩
    [("AzoniNFT", "u1")] [] "AzoniNFT" "u1"
    [⟨9, "c", none⟩, ⟨8, "b", some "r"⟩, ⟨7, "a", none⟩]
    ⟨9, "c", none⟩ [⟨7, "a", none⟩]
    (by decide) rfl (by decide) (by decide)).2.1

/-! ## C6: bootstrap skips a failing handle and persists once -/

theorem bootstrapHandle_eq_none (env : BootEnv)
    (acc : List (String × String) × List (String × Nat)) (h : String)
    (hl : env.lookupId h = none) : bootstrapHandle env acc h = acc := by
  unfold bootstrapHandle; rw [hl]

theorem bootstrapHandle_eq_some (env : BootEnv)
    (acc : List (String × String) × List (String × Nat)) (h uid : String)
    (hl : env.lookupId h = some uid) :
    bootstrapHandle env acc h =
      (match env.latest uid with
        | none => (jsSet acc.1 h uid, acc.2)
        | some none => (jsSet acc.1 h uid, acc.2)
        | some (some tid) => (jsSet acc.1 h uid, jsSet acc.2 h tid)) := by
  unfold bootstrapHandle; rw [hl]

theorem bootstrapHandle_absent (env : BootEnv) (h2 : String)
    (hlk2 : env.lookupId h2 = none)
    (acc : List (String × String) × List (String × Nat)) (h : String)
    (ha1 : jsGet acc.1 h2 = none) (ha2 : jsGet acc.2 h2 = none) :
    jsGet (bootstrapHandle env acc h).1 h2 = none
    ∧ jsGet (bootstrapHandle env acc h).2 h2 = none := by
  cases hl : env.lookupId h with
  | none => rw [bootstrapHandle_eq_none env acc h hl]; exact ⟨ha1, ha2⟩
  | some uid =>
    have hne : h ≠ h2 := by
      intro he; subst he; rw [hl] at hlk2; cases hlk2
    rw [bootstrapHandle_eq_some env acc h uid hl]
    cases hlt : env.latest uid with
    | none =>
      constructor
      · show jsGet (jsSet acc.1 h uid) h2 = none
        rw [jsGet_jsSet_ne acc.1 h h2 uid hne]; exact ha1
      · exact ha2
    | some o =>
      cases o with
      | none =>
        constructor
        · show jsGet (jsSet acc.1 h uid) h2 = none
          rw [jsGet_jsSet_ne acc.1 h h2 uid hne]; exact ha1
        · exact ha2
      | some tid =>
        constructor
        · show jsGet (jsSet acc.1 h uid) h2 = none
          rw [jsGet_jsSet_ne acc.1 h h2 uid hne]; exact ha1
        · show jsGet (jsSet acc.2 h tid) h2 = none
          rw [jsGet_jsSet_ne acc.2 h h2 tid hne]; exact ha2

theorem bootstrapHandle_establishes (env : BootEnv) (h1 uid : String) (tid : Nat)
    (hlk : env.lookupId h1 = some uid) (hlt : env.latest uid = some (some tid))
    (acc : List (String × String) × List (String × Nat)) :
    jsGet (bootstrapHandle env acc h1).1 h1 = some uid
    ∧ jsGet (bootstrapHandle env acc h1).2 h1 = some tid := by
  rw [bootstrapHandle_eq_some env acc h1 uid hlk, hlt]
  exact ⟨jsGet_jsSet_self acc.1 h1 uid, jsGet_jsSet_self acc.2 h1 tid⟩

theorem bootstrapHandle_preserves (env : BootEnv) (h1 uid : String) (tid : Nat)
    (hlk : env.lookupId h1 = some uid) (hlt : env.latest uid = some (some tid))
    (acc : List (String × String) × List (String × Nat)) (h : String)
    (hp1 : jsGet acc.1 h1 = some uid) (hp2 : jsGet acc.2 h1 = some tid) :
    jsGet (bootstrapHandle env acc h).1 h1 = some uid
    ∧ jsGet (bootstrapHandle env acc h).2 h1 = some tid := by
  by_cases he : h = h1
  · subst he; exact bootstrapHandle_establishes env h uid tid hlk hlt acc
  · cases hl : env.lookupId h with
    | none => rw [bootstrapHandle_eq_none env acc h hl]; exact ⟨hp1, hp2⟩
    | some uid2 =>
      rw [bootstrapHandle_eq_some env acc h uid2 hl]
      cases hlt2 : env.latest uid2 with
      | none =>
        constructor
        · show jsGet (jsSet acc.1 h uid2) h1 = some uid
          rw [jsGet_jsSet_ne acc.1 h h1 uid2 he]; exact hp1
        · exact hp2
      | some o =>
        cases o with
        | none =>
          constructor
          · show jsGet (jsSet acc.1 h uid2) h1 = some uid
            rw [jsGet_jsSet_ne acc.1 h h1 uid2 he]; exact hp1
          · exact hp2
        | some tid2 =>
          constructor
          · show jsGet (jsSet acc.1 h uid2) h1 = some uid
            rw [jsGet_jsSet_ne acc.1 h h1 uid2 he]; exact hp1
          · show jsGet (jsSet acc.2 h tid2) h1 = some tid
            rw [jsGet_jsSet_ne acc.2 h h1 tid2 he]; exact hp2

theorem bootFold_absent (env : BootEnv) (h2 : String)
    (hlk2 : env.lookupId h2 = none) :
    ∀ (l : List String) (acc : List (String × String) × List (String × Nat)),
      jsGet acc.1 h2 = none → jsGet acc.2 h2 = none →
      jsGet (l.foldl (bootstrapHandle env) acc).1 h2 = none
      ∧ jsGet (l.foldl (bootstrapHandle env) acc).2 h2 = none := by
  intro l
  induction l with
  | nil => intro acc ha1 ha2; exact ⟨ha1, ha2⟩
  | cons h rest ih =>
    intro acc ha1 ha2
    rw [List.foldl_cons]
    obtain ⟨hb1, hb2⟩ := bootstrapHandle_absent env h2 hlk2 acc h ha1 ha2
    exact ih _ hb1 hb2

theorem bootFold_present (env : BootEnv) (h1 uid : String) (tid : Nat)
    (hlk : env.lookupId h1 = some uid) (hlt : env.latest uid = some (some tid)) :
    ∀ (l : List String) (acc : List (String × String) × List (String × Nat)),
      jsGet acc.1 h1 = some uid → jsGet acc.2 h1 = some tid →
      jsGet (l.foldl (bootstrapHandle env) acc).1 h1 = some uid
      ∧ jsGet (l.foldl (bootstrapHandle env) acc).2 h1 = some tid := by
  intro l
  induction l with
  | nil => intro acc ha1 ha2; exact ⟨ha1, ha2⟩
  | cons h rest ih =>
    intro acc ha1 ha2
    rw [List.foldl_cons]
    obtain ⟨hb1, hb2⟩ := bootstrapHandle_preserves env h1 uid tid hlk hlt acc h ha1 ha2
    exact ih _ hb1 hb2

/-- C6: in bootstrap mode, a handle whose lookup resolves and who has a
latest post ends up in both output mappings, a handle whose lookup fails
appears in neither, the fold over the remaining handles still runs (no
abort), and both mappings are persisted exactly once, after all handles
are processed. -/
theorem bootstrap_skips_failed_handle (env : BootEnv) (handles : List String)
    (h1 h2 uid : String) (tid : Nat)
    (hmem : h1 ∈ handles)
    (hlk1 : env.lookupId h1 = some uid)
    (hlt : env.latest uid = some (some tid))
    (hlk2 : env.lookupId h2 = none) :
    jsGet (initializeLastSeen env handles).1.1 h1 = some uid
    ∧ jsGet (initializeLastSeen env handles).1.2 h1 = some tid
    ∧ jsGet (initializeLastSeen env handles).1.1 h2 = none
    ∧ jsGet (initializeLastSeen env handles).1.2 h2 = none
    ∧ (initializeLastSeen env handles).2 =
        [Event.writeFile lastSeenFile
          (serializeLastSeen (initializeLastSeen env handles).1.2),
         Event.writeFile userIdFile
          (serializeMap (initializeLastSeen env handles).1.1)] := by
  have hres : (initializeLastSeen env handles).1 =
      handles.foldl (bootstrapHandle env) ([], []) := rfl
  obtain ⟨pre, post, rfl⟩ := List.append_of_mem hmem
  have hsplit : (pre ++ h1 :: post).foldl (bootstrapHandle env) ([], []) =
      post.foldl (bootstrapHandle env)
        (bootstrapHandle env (pre.foldl (bootstrapHandle env) ([], [])) h1) := by
    rw [List.foldl_append, List.foldl_cons]
  obtain ⟨he1, he2⟩ := bootstrapHandle_establishes env h1 uid tid hlk1 hlt
    (pre.foldl (bootstrapHandle env) ([], []))
  obtain ⟨hp1, hp2⟩ := bootFold_present env h1 uid tid hlk1 hlt post _ he1 he2
  obtain ⟨ha1, ha2⟩ := bootFold_absent env h2 hlk2 (pre ++ h1 :: post) ([], []) rfl rfl
  refine ⟨?_, ?_, ?_, ?_, rfl⟩
  · rw [hres, hsplit]; exact hp1
  · rw [hres, hsplit]; exact hp2
  · rw [hres]; exact ha1
  · rw [hres]; exact ha2

/-- Witness for C6: with two concrete handles, the resolving one lands in
both mappings, the failing one in neither, and exactly two writes close
the run. -/
theorem bootstrap_skips_failed_handle_witness :
    jsGet (initializeLastSeen ⟨fun h => if h == "H2" then none else some "u1",
        fun _ => some (some 42)⟩ ["H1", "H2"]).1.1 "H1" = some "u1"
    ∧ jsGet (initializeLastSeen ⟨fun h => if h == "H2" then none else some "u1",
        fun _ => some (some 42)⟩ ["H1", "H2"]).1.2 "H1" = some 42
    ∧ jsGet (initializeLastSeen ⟨fun h => if h == "H2" then none else some "u1",
        fun _ => some (some 42)⟩ ["H1", "H2"]).1.1 "H2" = none
    ∧ jsGet (initializeLastSeen ⟨fun h => if h == "H2" then none else some "u1",
        fun _ => some (some 42)⟩ ["H1", "H2"]).1.2 "H2" = none
    ∧ (initializeLastSeen ⟨fun h => if h == "H2" then none else some "u1",
        fun _ => some (some 42)⟩ ["H1", "H2"]).2 =
        [Event.writeFile lastSeenFile
          (serializeLastSeen (initializeLastSeen ⟨fun h => if h == "H2" then none else some "u1",
            fun _ => some (some 42)⟩ ["H1", "H2"]).1.2),
         Event.writeFile userIdFile
          (serializeMap (initializeLastSeen ⟨fun h => if h == "H2" then none else some "u1",
            fun _ => some (some 42)⟩ ["H1", "H2"]).1.1)] :=
  bootstrap_skips_failed_handle ⟨fun h => if h == "H2" then none else some "u1",
      fun _ => some (some 42)⟩ ["H1", "H2"] "H1" "H2" "u1" 42
    (by decide) (by decide) rfl (by decide)

/-! ## C7: JSON save/load roundtrip -/

theorem skipWs_cons_ws (c : Char) (l : List Char) (h : isWsChar c = true) :
    skipWs (c :: l) = skipWs l := by
  simp [skipWs, h]

theorem skipWs_cons_not_ws (c : Char) (l : List Char) (h : isWsChar c = false) :
    skipWs (c :: l) = c :: l := by
  simp [skipWs, h]

theorem skipWs_idem (l : List Char) : skipWs (skipWs l) = skipWs l := by
  induction l with
  | nil => rfl
  | cons c cs ih =>
    by_cases h : isWsChar c
    · rw [skipWs_cons_ws c cs h, ih]
    · rw [skipWs_cons_not_ws c cs (by simp [h]), skipWs_cons_not_ws c cs (by simp [h])]

theorem parseStringBody_escape (s rest : List Char) :
    parseStringBody (escapeChars s ++ '"' :: rest) = some (s, rest) := by
  induction s with
  | nil =>
    show parseStringBody ('"' :: rest) = some ([], rest)
    rw [parseStringBody.eq_def]
    simp
  | cons c cs ih =>
    rw [show escapeChars (c :: cs) = escapeChar c ++ escapeChars cs from rfl,
        List.append_assoc]
    by_cases h1 : c = '"'
    · subst h1; simp [escapeChar, parseStringBody, unescapeChar, ih]
    · by_cases h2 : c = '\\'
      · subst h2; simp [escapeChar, parseStringBody, unescapeChar, ih]
      · by_cases h3 : c = '\n'
        · subst h3; simp [escapeChar, parseStringBody, unescapeChar, ih]
        · by_cases h4 : c = '\t'
          · subst h4; simp [escapeChar, parseStringBody, unescapeChar, ih]
          · by_cases h5 : c = '\r'
            · subst h5; simp [escapeChar, parseStringBody, unescapeChar, ih]
            · have he : escapeChar c = [c] := by simp [escapeChar, h1, h2, h3, h4, h5]
              rw [he, List.singleton_append, parseStringBody.eq_def]
              simp only [if_neg h1, if_neg h2, ih]

theorem parseQuoted_cons_ws (c : Char) (l : List Char) (h : isWsChar c = true) :
    parseQuoted (c :: l) = parseQuoted l := by
  unfold parseQuoted; rw [skipWs_cons_ws c l h]

theorem parseQuoted_quote (s rest : List Char) :
    parseQuoted (quoteChars s ++ rest) = some (s, rest) := by
  unfold parseQuoted quoteChars
  rw [List.cons_append, skipWs_cons_not_ws _ _ (by decide)]
  simp only [expectChar, if_pos]
  rw [List.append_assoc, List.singleton_append]
  exact parseStringBody_escape s rest

theorem parseEntry_entryChars (k v rest : List Char) :
    parseEntry (entryChars (k, v) ++ rest) = some ((k, v), rest) := by
  have e1 : entryChars (k, v) ++ rest =
      ' ' :: (' ' :: (quoteChars k ++ (':' :: (' ' :: (quoteChars v ++ rest))))) := by
    simp [entryChars, List.append_assoc]
  unfold parseEntry
  rw [e1, parseQuoted_cons_ws _ _ (by decide), parseQuoted_cons_ws _ _ (by decide),
      parseQuoted_quote]
  dsimp only
  rw [skipWs_cons_not_ws _ _ (by decide)]
  dsimp only [expectChar]
  rw [if_pos rfl]
  dsimp only
  rw [parseQuoted_cons_ws _ _ (by decide), parseQuoted_quote]

theorem parseEntry_cons_ws (c : Char) (l : List Char) (h : isWsChar c = true) :
    parseEntry (c :: l) = parseEntry l := by
  unfold parseEntry; rw [parseQuoted_cons_ws c l h]

theorem parseEntry_skipWs (l : List Char) : parseEntry (skipWs l) = parseEntry l := by
  unfold parseEntry parseQuoted; rw [skipWs_idem]

theorem parseEntriesAux_cons_ws (fuel : Nat) (c : Char) (l : List Char)
    (h : isWsChar c = true) :
    parseEntriesAux fuel (c :: l) = parseEntriesAux fuel l := by
  cases fuel with
  | zero => rfl
  | succ f =>
    rw [parseEntriesAux.eq_def]
    conv_rhs => rw [parseEntriesAux.eq_def]
    dsimp only
    rw [parseEntry_cons_ws c l h]

theorem parseEntriesAux_skipWs (fuel : Nat) (l : List Char) :
    parseEntriesAux fuel (skipWs l) = parseEntriesAux fuel l := by
  cases fuel with
  | zero => rfl
  | succ f =>
    rw [parseEntriesAux.eq_def]
    conv_rhs => rw [parseEntriesAux.eq_def]
    dsimp only
    rw [parseEntry_skipWs l]

theorem parseEntriesAux_entriesChars :
    ∀ (es : List (List Char × List Char)) (e : List Char × List Char) (fuel : Nat),
      es.length < fuel →
      parseEntriesAux fuel (entriesChars (e :: es) ++ ['\n', Char.ofNat 125]) =
        some (e :: es, [Char.ofNat 125]) := by
  intro es
  induction es with
  | nil =>
    intro e fuel hf
    obtain ⟨k, v⟩ := e
    cases fuel with
    | zero => omega
    | succ f =>
      rw [show entriesChars [(k, v)] = entryChars (k, v) from rfl]
      rw [parseEntriesAux.eq_def]
      dsimp only
      rw [parseEntry_entryChars]
      dsimp only
      rw [show skipWs ['\n', Char.ofNat 125] = [Char.ofNat 125] from by decide]
      dsimp only
      rw [if_neg (show ¬ Char.ofNat 125 = ',' from by decide)]
  | cons e2 es2 ih =>
    intro e fuel hf
    obtain ⟨k, v⟩ := e
    cases fuel with
    | zero => omega
    | succ f =>
      rw [show entriesChars ((k, v) :: e2 :: es2) =
          entryChars (k, v) ++ ',' :: '\n' :: entriesChars (e2 :: es2) from rfl,
        List.append_assoc]
      simp only [List.cons_append]
      rw [parseEntriesAux.eq_def]
      dsimp only
      rw [parseEntry_entryChars]
      dsimp only
      rw [skipWs_cons_not_ws _ _ (by decide)]
      dsimp only
      rw [if_pos rfl]
      rw [parseEntriesAux_cons_ws f _ _ (by decide)]
      rw [ih e2 f (by simp at hf; omega)]

theorem skipWs_entryChars (k v : List Char) (X : List Char) :
    skipWs (entryChars (k, v) ++ X) =
      '"' :: ((escapeChars k ++ ['"']) ++ (':' :: ' ' :: (quoteChars v ++ X))) := by
  have e1 : entryChars (k, v) ++ X =
      ' ' :: (' ' :: ('"' :: ((escapeChars k ++ ['"']) ++ (':' :: ' ' :: (quoteChars v ++ X))))) := by
    simp [entryChars, quoteChars, List.append_assoc]
  rw [e1, skipWs_cons_ws _ _ (by decide), skipWs_cons_ws _ _ (by decide),
      skipWs_cons_not_ws _ _ (by decide)]

theorem skipWs_entriesChars_head (k v : List Char) (es : List (List Char × List Char))
    (tail : List Char) :
    ∃ Z, skipWs (entriesChars ((k, v) :: es) ++ tail) = '"' :: Z := by
  cases es with
  | nil =>
    rw [show entriesChars [(k, v)] = entryChars (k, v) from rfl]
    exact ⟨_, skipWs_entryChars k v tail⟩
  | cons e2 es2 =>
    rw [show entriesChars ((k, v) :: e2 :: es2) =
        entryChars (k, v) ++ ',' :: '\n' :: entriesChars (e2 :: es2) from rfl,
      List.append_assoc]
    exact ⟨_, skipWs_entryChars k v _⟩

theorem entriesChars_length_ge (es : List (List Char × List Char)) :
    ∀ e, es.length + 1 ≤ (entriesChars (e :: es)).length := by
  induction es with
  | nil =>
    intro e
    rw [show entriesChars [e] = entryChars e from rfl]
    simp only [entryChars, List.length_nil, List.length_cons, List.length_append]
    omega
  | cons e2 es2 ih =>
    intro e
    rw [show entriesChars (e :: e2 :: es2) =
        entryChars e ++ ',' :: '\n' :: entriesChars (e2 :: es2) from rfl]
    have := ih e2
    simp [entryChars, List.length_append]
    omega

theorem parseMapChars_mapChars (m : List (List Char × List Char)) :
    parseMapChars (mapChars m) = some m := by
  cases m with
  | nil => decide
  | cons e es =>
    obtain ⟨k, v⟩ := e
    obtain ⟨Z, hZ⟩ := skipWs_entriesChars_head k v es ['\n', Char.ofNat 125]
    have hlen : es.length <
        (Char.ofNat 123 :: '\n' :: (entriesChars ((k, v) :: es)
          ++ ['\n', Char.ofNat 125])).length + 1 := by
      have h1 := entriesChars_length_ge es (k, v)
      simp [List.length_append]
      omega
    unfold parseMapChars
    rw [show mapChars ((k, v) :: es) =
        Char.ofNat 123 :: ('\n' :: (entriesChars ((k, v) :: es) ++ ['\n', Char.ofNat 125]))
        from rfl]
    rw [skipWs_cons_not_ws _ _ (by decide)]
    dsimp only [expectChar]
    rw [if_pos rfl]
    dsimp only
    rw [skipWs_cons_ws _ _ (by decide), hZ]
    dsimp only
    rw [if_neg (by decide)]
    rw [← hZ, parseEntriesAux_skipWs, parseEntriesAux_entriesChars es (k, v) _ hlen]
    dsimp only
    rw [show skipWs [Char.ofNat 125] = [Char.ofNat 125] from by decide]
    dsimp only [expectChar]
    rw [if_pos rfl]
    dsimp only
    rw [show skipWs ([] : List Char) = [] from rfl]
    simp

theorem parseMap_serializeMap (m : List (String × String)) :
    parseMap (serializeMap m) = some m := by
  unfold parseMap serializeMap
  rw [show (⟨mapChars (m.map fun p => (p.1.data, p.2.data))⟩ : String).data
      = mapChars (m.map fun p => (p.1.data, p.2.data)) from rfl]
  rw [parseMapChars_mapChars]
  rw [Option.map_some', List.map_map]
  congr 1
  induction m with
  | nil => rfl
  | cons p ps ih =>
    obtain ⟨⟨la⟩, ⟨lb⟩⟩ := p
    rw [List.map_cons, ih]
    rfl

/-- C7: persisting a mapping with `JSON.stringify(·, null, 2)` and
reloading it with `JSON.parse` yields the same handle-to-ID
associations, for the account-ID mapping and for the watermark mapping. -/
theorem cache_save_load_roundtrip (ids : List (String × String))
    (ws : List (String × Nat))
    (hnodup1 : (ids.map Prod.fst).Nodup) (hnodup2 : (ws.map Prod.fst).Nodup)
    (hsafe1 : ∀ p ∈ ids, safeString p.1 ∧ safeString p.2)
    (hsafe2 : ∀ p ∈ ws, safeString p.1) :
    parseMap (serializeMap ids) = some ids
    ∧ parseMap (serializeLastSeen ws) = some (ws.map fun p => (p.1, toString p.2)) := by
  constructor
  · exact parseMap_serializeMap ids
  · rw [show serializeLastSeen ws = serializeMap (ws.map fun p => (p.1, toString p.2))
        from rfl]
    exact parseMap_serializeMap (ws.map fun p => (p.1, toString p.2))

/-- Witness for C7: a concrete handle-to-ID pair survives the save/load
round trip in both mappings. -/
theorem cache_save_load_roundtrip_witness :
    parseMap (serializeMap [("AzoniNFT", "12345")]) = some [("AzoniNFT", "12345")]
    ∧ parseMap (serializeLastSeen [("AzoniNFT", 12345)]) =
        some ([("AzoniNFT", (12345 : Nat))].map fun p => (p.1, toString p.2)) :=
  cache_save_load_roundtrip [("AzoniNFT", "12345")] [("AzoniNFT", 12345)]
    (by decide) (by decide) (by decide) (by decide)

/-! ## C8: failed cache loads default to empty mappings -/

theorem loadCache_fst (e1 : Bool) (c1 : Option String) (e2 : Bool) (c2 : Option String) :
    (loadCache e1 c1 e2 c2).1 =
      match (if e1 then c1.bind parseMap else some []) with
      | none => []
      | some ls => ls := by
  unfold loadCache
  cases h1 : (if e1 then c1.bind parseMap else some []) with
  | none => rfl
  | some ls =>
    cases h2 : (if e2 then c2.bind parseMap else some []) with
    | none => rfl
    | some us => rfl

theorem loadCache_snd (e1 : Bool) (c1 : Option String) (e2 : Bool) (c2 : Option String) :
    (loadCache e1 c1 e2 c2).2 =
      match (if e1 then c1.bind parseMap else some []) with
      | none => []
      | some _ =>
        match (if e2 then c2.bind parseMap else some []) with
        | none => []
        | some us => us := by
  unfold loadCache
  cases h1 : (if e1 then c1.bind parseMap else some []) with
  | none => rfl
  | some ls =>
    cases h2 : (if e2 then c2.bind parseMap else some []) with
    | none => rfl
    | some us => rfl

/-- C8: the startup cache-loading block is total (every missing-file,
failing-read or failing-parse path lands in the `catch`, never a crash),
and whenever a cache file is missing or its content fails to read or
parse, the corresponding in-memory mapping is left empty. -/
theorem cache_load_failure_defaults_empty (e1 : Bool) (c1 : Option String)
    (e2 : Bool) (c2 : Option String) :
    ((e1 = false ∨ c1 = none ∨ ∃ s, c1 = some s ∧ parseMap s = none) →
      (loadCache e1 c1 e2 c2).1 = [])
    ∧ ((e2 = false ∨ c2 = none ∨ ∃ s, c2 = some s ∧ parseMap s = none) →
      (loadCache e1 c1 e2 c2).2 = []) := by
  constructor
  · intro hf
    rw [loadCache_fst]
    rcases hf with rfl | rfl | ⟨s, rfl, hp⟩
    · rfl
    · cases e1 <;> rfl
    · cases e1 with
      | false => rfl
      | true => simp [hp]
  · intro hf
    rw [loadCache_snd]
    cases h1 : (if e1 then c1.bind parseMap else some []) with
    | none => rfl
    | some ls =>
      rcases hf with rfl | rfl | ⟨s, rfl, hp⟩
      · rfl
      · cases e2 <;> rfl
      · cases e2 with
        | false => rfl
        | true => simp [hp]

/-- Witness for C8: a corrupt `lastSeen.json` and a corrupt
`userIds.json` both load as empty mappings. -/
theorem cache_load_failure_defaults_empty_witness :
    (loadCache true (some "nope") true (some "x")).1 = []
    ∧ (loadCache true (some "nope") true (some "x")).2 = [] :=
  ⟨(cache_load_failure_defaults_empty true (some "nope") true (some "x")).1
      (Or.inr (Or.inr ⟨"nope", rfl, by decide⟩)),
    (cache_load_failure_defaults_empty true (some "nope") true (some "x")).2
      (Or.inr (Or.inr ⟨"x", rfl, by decide⟩))⟩
